import Mathlib

/-!
Verification of the CDS exploratory-data-analysis pipeline
(src/cds-eda/cds_eda/eda.py) against its natural-language specification.

Modelling conventions:
* A pandas DataFrame of trade records is a `List Record` (one element per row,
  in row order).  Column values live in the record's fields.
* Floating-point numbers are embedded as exact rational values, represented by
  the unreduced-fraction type `Q` below; arithmetic on `Q` mirrors the exact
  value semantics of the float operations used by the code (sums, differences,
  products, quotients, absolute value, comparisons).  The single place where a
  float special value (inf/NaN) can influence control flow - division by a zero
  MAD in removeOutliers - is modelled explicitly by the filter `zKeep`.
* NaN cells of the `spread` column are `Option.none`.
* Timestamps are the `Timestamp` structure (year, month, day, hour); the
  pandas daily `Grouper` corresponds to grouping on the (year, month, day)
  projection, and pandas timestamp differences in days are computed with the
  standard civil-calendar day-number function `daysFromCivil`.
-/

set_option maxRecDepth 10000
set_option linter.unusedVariables false

namespace CdsEda

/-- Exact rational value of a floating-point quantity, kept as an unreduced
fraction (numerator, denominator) so that every arithmetic step reduces in the
kernel.  Every value produced by the embedded pipeline has a nonzero
denominator except behind the explicit zero-divisor guard in `zKeep`. -/
structure Q where
  num : Int
  den : Int
deriving DecidableEq, Repr

instance (n : Nat) : OfNat Q n := ⟨⟨n, 1⟩⟩

def Q.add (x y : Q) : Q := ⟨x.num * y.den + y.num * x.den, x.den * y.den⟩

def Q.sub (x y : Q) : Q := ⟨x.num * y.den - y.num * x.den, x.den * y.den⟩

def Q.mul (x y : Q) : Q := ⟨x.num * y.num, x.den * y.den⟩

def Q.div (x y : Q) : Q := ⟨x.num * y.den, x.den * y.num⟩

def Q.qabs (x : Q) : Q := ⟨|x.num|, |x.den|⟩

/-- Value-level comparison a/b <= c/d, via multiplication by the positive
quantity b^2*d^2 (valid whenever both denominators are nonzero). -/
def Q.le (x y : Q) : Bool := x.num * x.den * (y.den * y.den) ≤ y.num * y.den * (x.den * x.den)

def Q.lt (x y : Q) : Bool := x.num * x.den * (y.den * y.den) < y.num * y.den * (x.den * x.den)

/-- Value-level equality a/b = c/d, i.e. a*d = c*b (valid for nonzero denominators). -/
def Q.eqv (x y : Q) : Bool := x.num * y.den = y.num * x.den

def Q.sum (l : List Q) : Q := l.foldl Q.add 0

/-- Timestamp with calendar date and an hour component standing for the
intra-day part of a pandas timestamp (column valueDate / valueDate_hour). -/
structure Timestamp where
  year : Int
  month : Nat
  day : Nat
  hour : Nat
deriving DecidableEq, Repr

/-- Chronological (lexicographic) order on timestamps. -/
def tsLE (a b : Timestamp) : Bool :=
  decide (a.year < b.year ∨ (a.year = b.year ∧ (a.month < b.month ∨ (a.month = b.month ∧
    (a.day < b.day ∨ (a.day = b.day ∧ a.hour ≤ b.hour))))))

/-- Same calendar day: the grouping key used by pd.Grouper with daily frequency. -/
def sameDayB (a b : Timestamp) : Bool :=
  a.year == b.year && a.month == b.month && a.day == b.day

/-- Day number of a civil-calendar date (days since 1970-01-01, standard
days-from-civil algorithm); pandas timestamp subtraction in whole days agrees
with differences of this function on valid dates. -/
def daysFromCivil (y : Int) (m d : Nat) : Int :=
  let y' : Int := if m ≤ 2 then y - 1 else y
  let era : Int := (if 0 ≤ y' then y' else y' - 399) / 400
  let yoe : Int := y' - era * 400
  let mp : Int := (((m : Int) + 9) % 12)
  let doy : Int := (153 * mp + 2) / 5 + (d : Int) - 1
  let doe : Int := yoe * 365 + yoe / 4 - yoe / 100 + doy
  era * 146097 + doe - 719468

def dayNum (t : Timestamp) : Int := daysFromCivil t.year t.month t.day

/-- Calendar-day key (year, month, day) of a timestamp. -/
def dayKey (t : Timestamp) : Int × Nat × Nat := (t.year, t.month, t.day)

/-- Lexicographic order on calendar-day keys (the ascending day order used by
pandas groupby on a daily Grouper). -/
def dayLE (a b : Int × Nat × Nat) : Bool :=
  decide (a.1 < b.1 ∨ (a.1 = b.1 ∧ (a.2.1 < b.2.1 ∨ (a.2.1 = b.2.1 ∧ a.2.2 ≤ b.2.2))))

/-- Trade/quote record after universe enrichment: one DataFrame row.  Fields
not involved in any claim (price, upfront, priceType, priceDirection,
switchStatus, firm) are omitted; they are carried through the pipeline
unchanged and never read. -/
structure Record where
  ticker : String
  family : String
  valueDate : Timestamp
  spread : Option Q
  size : Q
deriving DecidableEq, Repr

/-! ### String comparison

Python compares strings lexicographically by code point; pandas max on a
string column uses that order.  The core String order of Lean does not reduce
in the kernel, so we use an explicit executable version. -/

def strLeL : List Char → List Char → Bool
  | [], _ => true
  | _ :: _, [] => false
  | a :: as, b :: bs =>
    if a.toNat < b.toNat then true
    else if b.toNat < a.toNat then false
    else strLeL as bs

def strLe (a b : String) : Bool := strLeL a.data b.data

def strMax (a b : String) : String := if strLe a b then b else a

theorem strLeL_refl (l : List Char) : strLeL l l = true := by
  induction l with
  | nil => rfl
  | cons a as ih => simp [strLeL, ih]

theorem strLeL_total (a b : List Char) : strLeL a b = true ∨ strLeL b a = true := by
  induction a generalizing b with
  | nil => exact Or.inl rfl
  | cons x xs ih =>
    cases b with
    | nil => exact Or.inr rfl
    | cons y ys =>
      simp only [strLeL]
      rcases Nat.lt_trichotomy x.toNat y.toNat with h | h | h
      · simp [h]
      · simpa [h, Nat.lt_irrefl] using ih ys
      · simp [h, Nat.lt_asymm h]

theorem strLeL_trans (a b c : List Char) (hab : strLeL a b = true)
    (hbc : strLeL b c = true) : strLeL a c = true := by
  induction a generalizing b c with
  | nil => rfl
  | cons x xs ih =>
    cases b with
    | nil => simp [strLeL] at hab
    | cons y ys =>
      cases c with
      | nil => simp [strLeL] at hbc
      | cons z zs =>
        simp only [strLeL] at hab hbc ⊢
        split_ifs at hab hbc ⊢ <;> first
          | rfl
          | omega
          | (exact ih ys zs hab hbc)

theorem strLe_refl (a : String) : strLe a a = true := strLeL_refl a.data

theorem strLe_total (a b : String) : strLe a b = true ∨ strLe b a = true :=
  strLeL_total a.data b.data

theorem strLe_trans {a b c : String} (hab : strLe a b = true) (hbc : strLe b c = true) :
    strLe a c = true := strLeL_trans a.data b.data c.data hab hbc

theorem strLe_strMax_left (a b : String) : strLe a (strMax a b) = true := by
  unfold strMax
  by_cases h : strLe a b = true
  · simp [h]
  · simpa [h] using strLe_refl a

theorem strLe_strMax_right (a b : String) : strLe b (strMax a b) = true := by
  unfold strMax
  by_cases h : strLe a b = true
  · simpa [h] using strLe_refl b
  · rcases strLe_total a b with h' | h'
    · exact absurd h' h
    · simpa [h]

theorem strLe_foldl_strMax_acc (l : List String) (acc : String) :
    strLe acc (l.foldl strMax acc) = true := by
  induction l generalizing acc with
  | nil => exact strLe_refl acc
  | cons a as ih =>
    exact strLe_trans (strLe_strMax_left acc a) (ih (strMax acc a))

theorem strLe_foldl_strMax_mem {l : List String} {x : String} (acc : String) (h : x ∈ l) :
    strLe x (l.foldl strMax acc) = true := by
  induction l generalizing acc with

  | nil => cases h
  | cons a as ih =>
    rcases List.mem_cons.mp h with rfl | h'
    · exact strLe_trans (strLe_strMax_right acc x) (strLe_foldl_strMax_acc as (strMax acc x))
    · exact ih (strMax acc a) h'

/-! ### versionsDay / keepLatestVersion (eda.py lines 48-99) -/

/-- Record augmented by versionsDay with the per-(family, day) version
diagnostics (columns NbVersionTickers, Version, MaxVersion). -/
structure VRecord where
  base : Record
  NbVersionTickers : Nat
  Version : String
  MaxVersion : String
deriving DecidableEq, Repr

/-- Version suffix of a ticker: the Python slice ticker[-2:] (the whole string
when it is shorter than two characters), eda.py line 72. -/
def versionOf (r : Record) : String := r.ticker.takeRight 2

/-- Number of distinct tickers of one family on one calendar day
(groupby(family, daily).agg nunique, eda.py line 58). -/
def nbVersionTickers (df : List Record) (f : String) (t : Timestamp) : Nat :=
  (((df.filter (fun r => r.family == f && sameDayB r.valueDate t)).map (·.ticker)).dedup).length

/-- Maximum version string of one family on one calendar day
(groupby(family, daily).agg max on the Version column, eda.py line 77).
The fold starts from the empty string, a bottom element of the lexicographic
order, so on the nonempty groups that actually occur it is the group maximum. -/
def maxVersionB (df : List Record) (f : String) (t : Timestamp) : String :=
  (((df.filter (fun r => r.family == f && sameDayB r.valueDate t)).map versionOf).foldl strMax "")

/-- versionsDay (eda.py lines 48-88): attaches to every record the number of
distinct tickers and the maximum version string of its (family, calendar day)
group, via left joins on (family, year, month, day) in which each record
matches exactly the row of its own group.  Row order is preserved. -/
def versionsDay (df : List Record) : List VRecord :=
  df.map (fun r =>
    { base := r
      NbVersionTickers := nbVersionTickers df r.family r.valueDate
      Version := versionOf r
      MaxVersion := maxVersionB df r.family r.valueDate })

/-- keepLatestVersion (eda.py lines 90-99): keep the rows whose Version equals
the attached MaxVersion. -/
def keepLatestVersion (df : List VRecord) : List VRecord :=
  df.filter (fun r => r.Version == r.MaxVersion)

/-- C1: after versionsDay followed by keepLatestVersion, every surviving
record's Version equals its group's maximum version: it equals the fold-max of
the version strings of all records of the same family on the same calendar
day, and is lexicographically greater or equal to every such version string. -/
theorem keepLatestVersion_version_is_group_max (df : List Record) (r : VRecord)
    (h : r ∈ keepLatestVersion (versionsDay df)) :
    r.Version = maxVersionB df r.base.family r.base.valueDate ∧
    ∀ r' ∈ df, r'.family = r.base.family → sameDayB r'.valueDate r.base.valueDate = true →
      strLe (versionOf r') r.Version = true := by
  rcases List.mem_filter.mp h with ⟨hmem, hver⟩
  rcases List.mem_map.mp hmem with ⟨b, _, rfl⟩
  simp only at hver ⊢
  have hmax : versionOf b = maxVersionB df b.family b.valueDate := by
    simpa using eq_of_beq hver
  refine ⟨hmax, ?_⟩
  intro r' hr' hfam hday
  rw [hmax]
  unfold maxVersionB
  refine strLe_foldl_strMax_mem "" ?_
  refine List.mem_map.mpr ⟨r', ?_, rfl⟩
  refine List.mem_filter.mpr ⟨hr', ?_⟩
  simp [hfam, hday]

/-- Input of the end-to-end version-resolution scenario: three trades of family
A on day 2023-01-01 whose tickers end in 01, 02, 03. -/
def df9 : List Record :=
  [ ⟨"ITRX01", "A", ⟨2023, 1, 1, 9⟩, some 100, 1⟩,
    ⟨"ITRX02", "A", ⟨2023, 1, 1, 10⟩, some 101, 2⟩,
    ⟨"ITRX03", "A", ⟨2023, 1, 1, 11⟩, some 102, 3⟩ ]

/-- C1 witness: the general theorem applied to the concrete record set df9 and
its concrete survivor. -/
theorem keepLatestVersion_version_is_group_max_witness :
    (⟨⟨"ITRX03", "A", ⟨2023, 1, 1, 11⟩, some 102, 3⟩, 3, "03", "03"⟩ : VRecord).Version
        = maxVersionB df9 "A" ⟨2023, 1, 1, 11⟩ ∧
    ∀ r' ∈ df9, r'.family = "A" → sameDayB r'.valueDate ⟨2023, 1, 1, 11⟩ = true →
      strLe (versionOf r') (⟨⟨"ITRX03", "A", ⟨2023, 1, 1, 11⟩, some 102, 3⟩, 3, "03", "03"⟩ : VRecord).Version = true :=
  keepLatestVersion_version_is_group_max df9
    ⟨⟨"ITRX03", "A", ⟨2023, 1, 1, 11⟩, some 102, 3⟩, 3, "03", "03"⟩ (by decide)

/-- C9: on the three-trade scenario df9, versionsDay followed by
keepLatestVersion retains exactly the record with ticker suffix 03, and every
record's NbVersionTickers for family A on 2023-01-01 equals 3. -/
theorem versionsDay_scenario_three_trades :
    keepLatestVersion (versionsDay df9)
        = [⟨⟨"ITRX03", "A", ⟨2023, 1, 1, 11⟩, some 102, 3⟩, 3, "03", "03"⟩] ∧
    (versionsDay df9).map (fun v => v.NbVersionTickers) = [3, 3, 3] := by
  decide

/-! ### removeInsufficientData (eda.py lines 101-157) -/

/-- Aggregation granularity for removeInsufficientData: pandas Grouper
frequency Y (yearly) or M (monthly). -/
inductive Group where
  | Y : Group
  | M : Group
deriving DecidableEq, Repr

def dayNumKey (d : Int × Nat × Nat) : Int := daysFromCivil d.1 d.2.1 d.2.2

/-- Distinct families present in a record set, in order of last occurrence
(only membership in this list is ever used). -/
def familiesOf (dfs : List Record) : List String := (dfs.map (·.family)).dedup

/-- Sorted distinct calendar days on which a family trades (the rows of
df_mean for that family, eda.py lines 115-120; the groupby sorts its keys
ascending). -/
def daysOfFamily (dfs : List Record) (f : String) : List (Int × Nat × Nat) :=
  List.insertionSort (fun a b => dayLE a b = true)
    (((dfs.filter (fun r => r.family == f)).map (fun r => dayKey r.valueDate)).dedup)

/-- Size-weighted average spread of one (family, day) group (np.average with
weights, eda.py line 118).  np.average raises ZeroDivisionError when the
weights sum to zero, which is why general theorems about
removeInsufficientData assume sizesOK; the computed value itself is never read
downstream. -/
def weightedSpread (dfs : List Record) (f : String) (d : Int × Nat × Nat) : Q :=
  let g := dfs.filter (fun r => r.family == f && dayKey r.valueDate == d)
  Q.div (Q.sum (g.map (fun r => Q.mul (r.spread.getD 0) r.size))) (Q.sum (g.map (·.size)))

/-- Every (family, day) group of the spread-filtered record set has a nonzero
size total, so that the np.average call inside removeInsufficientData does not
raise. -/
def sizesOK (df : List Record) : Bool :=
  let dfs := df.filter (fun r => r.spread.isSome)
  (familiesOf dfs).all (fun f => (daysOfFamily dfs f).all (fun d =>
    !(Q.eqv (Q.sum ((dfs.filter
        (fun r => r.family == f && dayKey r.valueDate == d)).map (·.size))) 0)))

/-- Calendar-day gaps between a family's consecutive trading days
(column date_diff, eda.py lines 123-127): the first day gets 0 (fillna), every
later day the difference in days to the previous trading day. -/
def dayDiffs (days : List (Int × Nat × Nat)) : List Int :=
  match days with
  | [] => []
  | d :: rest => 0 :: ((d :: rest).zip rest).map (fun pr => dayNumKey pr.2 - dayNumKey pr.1)

/-- Label of the Grouper period containing a day, resolved to (year, month):
monthly periods are labelled by their month end, so they resolve to the day's
own (year, month); yearly periods are labelled by December 31, so they resolve
to (year, 12) (eda.py lines 132-138). -/
def periodKey (G : Group) (d : Int × Nat × Nat) : Int × Nat :=
  match G with
  | Group.M => (d.1, d.2.1)
  | Group.Y => (d.1, 12)

/-- Column daysMissing of df_grouped (eda.py line 132): the number of the
family's trading days in the period whose gap to the previous trading day
exceeds daysDiffLimit. -/
def daysMissing (dfs : List Record) (f : String) (G : Group) (p : Int × Nat)
    (limit : Int) : Nat :=
  (((daysOfFamily dfs f).zip (dayDiffs (daysOfFamily dfs f))).countP
    (fun pr => periodKey G pr.1 == p && decide (limit < pr.2)))

/-- Column total_days of df_grouped (eda.py line 132): the number of the
family's trading days in the period. -/
def totalDays (dfs : List Record) (f : String) (G : Group) (p : Int × Nat) : Nat :=
  ((daysOfFamily dfs f).countP (fun d => periodKey G d == p))

/-- Column proportion_outlier of df_grouped (eda.py line 134):
daysMissing / total_days. -/
def propOutlier (dfs : List Record) (f : String) (G : Group) (p : Int × Nat)
    (limit : Int) : Q :=
  Q.div ⟨(daysMissing dfs f G p limit : Int), 1⟩ ⟨(totalDays dfs f G p : Int), 1⟩

/-- A (family, (year, month)) bucket is flagged when df_grouped has a row for
it (the family trades in the period) whose proportion_outlier strictly exceeds
the proportion parameter (eda.py line 141). -/
def flaggedB (proportion : Q) (limit : Int) (G : Group) (dfs : List Record)
    (f : String) (p : Int × Nat) : Bool :=
  decide (0 < totalDays dfs f G p) && Q.lt proportion (propOutlier dfs f G p limit)

/-- removeInsufficientData (eda.py lines 101-157): drop rows with missing
spread, flag every (family, period) aggregate whose proportion of over-limit
day gaps exceeds the proportion parameter, and keep exactly the rows whose
(family, year, month) key does not match a flagged bucket (the left merge
gives non-flagged rows a proportion_outlier of NaN, filled with 0, and the
final filter keeps the rows whose merged proportion_outlier equals 0).
Row order is preserved. -/
def removeInsufficientData (proportion : Q) (daysDiffLimit : Int) (G : Group)
    (df : List Record) : List Record :=
  let dfs := df.filter (fun r => r.spread.isSome)
  dfs.filter (fun r =>
    !(flaggedB proportion daysDiffLimit G dfs r.family (r.valueDate.year, r.valueDate.month)))

/-- Record set of the gap scenario: family B trades on 2023-01-01, 2023-01-02
and 2023-02-09, i.e. with day gaps of 1 and 38 calendar days. -/
def df3 : List Record :=
  [ ⟨"ITXB03", "B", ⟨2023, 1, 1, 9⟩, some 100, 1⟩,
    ⟨"ITXB03", "B", ⟨2023, 1, 2, 9⟩, some 101, 1⟩,
    ⟨"ITXB03", "B", ⟨2023, 2, 9, 9⟩, some 102, 1⟩ ]

/-- C3 counterexample: in the gap scenario the computed proportion_outlier of
family B's period aggregate is not 0.5 (the denominator counts the three
trading days, not the two gaps), and with proportion 0.4 and yearly grouping
no record of family B is excluded at all. -/
theorem gap_scenario_proportion_not_half :
    Q.eqv (propOutlier df3 "B" Group.Y (2023, 12) 10) ⟨1, 2⟩ = false ∧
    removeInsufficientData ⟨2, 5⟩ 10 Group.Y df3 = df3 := by
  decide

/-- C3 amended: in the gap scenario the yearly aggregate of family B has
proportion_outlier 1/3 (one over-limit gap out of three trading days), so with
proportion 0.4 nothing is excluded; under monthly grouping the February bucket
has proportion_outlier 1 and exactly its records are excluded. -/
theorem gap_scenario_proportion_third :
    Q.eqv (propOutlier df3 "B" Group.Y (2023, 12) 10) ⟨1, 3⟩ = true ∧
    removeInsufficientData ⟨2, 5⟩ 10 Group.Y df3 = df3 ∧
    Q.eqv (propOutlier df3 "B" Group.M (2023, 2) 10) ⟨1, 1⟩ = true ∧
    Q.eqv (propOutlier df3 "B" Group.M (2023, 1) 10) 0 = true ∧
    removeInsufficientData ⟨2, 5⟩ 10 Group.M df3 = df3.take 2 := by
  decide

/-- Record set on which removeInsufficientData is not idempotent: family F
trades on 2022-12-20, 2023-01-01, 2023-01-28, 2023-02-05 and 2023-02-06.  With
monthly grouping, daysDiffLimit 10 and proportion 0.4 the first pass removes
the January bucket (both January days have over-limit gaps), after which
February's first day has a 47-day gap, so a second pass also removes the
February bucket. -/
def df4 : List Record :=
  [ ⟨"ITXF05", "F", ⟨2022, 12, 20, 9⟩, some 100, 1⟩,
    ⟨"ITXF05", "F", ⟨2023, 1, 1, 9⟩, some 101, 1⟩,
    ⟨"ITXF05", "F", ⟨2023, 1, 28, 9⟩, some 102, 1⟩,
    ⟨"ITXF05", "F", ⟨2023, 2, 5, 9⟩, some 103, 1⟩,
    ⟨"ITXF05", "F", ⟨2023, 2, 6, 9⟩, some 104, 1⟩ ]

/-- C4 counterexample: applying removeInsufficientData twice with the same
parameters can give a strictly different (smaller) record set than applying it
once, because removing a flagged bucket enlarges the day gap seen by the next
retained trading day. -/
theorem removeInsufficientData_not_idempotent :
    removeInsufficientData ⟨2, 5⟩ 10 Group.M (removeInsufficientData ⟨2, 5⟩ 10 Group.M df4)
      ≠ removeInsufficientData ⟨2, 5⟩ 10 Group.M df4 := by
  decide

/-- C4 amended: removeInsufficientData is not idempotent, but a second
application with the same parameters always yields a sublist of the first
application's output (the filter only ever removes rows). -/
theorem removeInsufficientData_twice_sublist (proportion : Q) (daysDiffLimit : Int)
    (G : Group) (df : List Record) (hs1 : sizesOK df = true)
    (hs2 : sizesOK (removeInsufficientData proportion daysDiffLimit G df) = true) :
    (removeInsufficientData proportion daysDiffLimit G
        (removeInsufficientData proportion daysDiffLimit G df)).Sublist
      (removeInsufficientData proportion daysDiffLimit G df) :=
  List.Sublist.trans (List.filter_sublist _) (List.filter_sublist _)

/-- C4 witness: the sublist theorem applied to the concrete record set df4. -/
theorem removeInsufficientData_twice_sublist_witness :
    (removeInsufficientData ⟨2, 5⟩ 10 Group.M
        (removeInsufficientData ⟨2, 5⟩ 10 Group.M df4)).Sublist
      (removeInsufficientData ⟨2, 5⟩ 10 Group.M df4) :=
  removeInsufficientData_twice_sublist ⟨2, 5⟩ 10 Group.M df4 (by decide) (by decide)

/-- Record set showing that retention is not the same as a zero
proportion_outlier: family B trades on 2023-01-01, 2023-01-02 and 2023-01-20,
so the January bucket has proportion_outlier 1/3. -/
def df5 : List Record :=
  [ ⟨"ITXB05", "B", ⟨2023, 1, 1, 9⟩, some 100, 1⟩,
    ⟨"ITXB05", "B", ⟨2023, 1, 2, 9⟩, some 101, 1⟩,
    ⟨"ITXB05", "B", ⟨2023, 1, 20, 9⟩, some 102, 1⟩ ]

/-- C5 counterexample: with proportion 0.5, all records of df5 are retained
although their bucket's computed proportion_outlier is 1/3, not 0 - retention
means "not flagged", not "proportion_outlier equals 0". -/
theorem retained_bucket_nonzero_proportion :
    removeInsufficientData ⟨1, 2⟩ 10 Group.M df5 = df5 ∧
    Q.eqv (propOutlier df5 "B" Group.M (2023, 1) 10) 0 = false := by
  decide

/-- C5 amended: removeInsufficientData performs all-or-nothing bucket
exclusion, with retention governed by the flag threshold rather than by a zero
proportion: a record with recorded spread survives exactly when its family has
no trading day whose period resolves to the record's (year, month) bucket with
proportion_outlier strictly above the proportion parameter.  In particular
every record of a flagged bucket is removed, and records of unflagged buckets
with nonzero proportion_outlier below the threshold are kept. -/
theorem removeInsufficientData_retained_iff_not_flagged (proportion : Q)
    (daysDiffLimit : Int) (G : Group) (df : List Record) (hs : sizesOK df = true)
    (r : Record) (hr : r ∈ df) (hsp : r.spread.isSome = true) :
    r ∈ removeInsufficientData proportion daysDiffLimit G df ↔
      ¬ (0 < totalDays (df.filter (fun x => x.spread.isSome)) r.family G
            (r.valueDate.year, r.valueDate.month) ∧
         Q.lt proportion (propOutlier (df.filter (fun x => x.spread.isSome)) r.family G
            (r.valueDate.year, r.valueDate.month) daysDiffLimit) = true) := by
  unfold removeInsufficientData
  rw [List.mem_filter]
  have hmem : r ∈ df.filter (fun x => x.spread.isSome) :=
    List.mem_filter.mpr ⟨hr, hsp⟩
  simp [hmem, flaggedB, Bool.and_eq_true, not_and]
  constructor
  · rintro (h0 | hb) hpos
    · omega
    · exact hb
  · intro h
    rcases Nat.eq_zero_or_pos (totalDays (df.filter (fun x => x.spread.isSome)) r.family G
        (r.valueDate.year, r.valueDate.month)) with h0 | hpos
    · exact Or.inl h0
    · exact Or.inr (h hpos)

/-- C5 witness: the retention characterisation applied to the first record of
the concrete record set df5. -/
theorem removeInsufficientData_retained_iff_not_flagged_witness :
    (⟨"ITXB05", "B", ⟨2023, 1, 1, 9⟩, some 100, 1⟩ : Record)
        ∈ removeInsufficientData ⟨1, 2⟩ 10 Group.M df5 ↔
      ¬ (0 < totalDays (df5.filter (fun x => x.spread.isSome)) "B" Group.M (2023, 1) ∧
         Q.lt ⟨1, 2⟩ (propOutlier (df5.filter (fun x => x.spread.isSome)) "B" Group.M
            (2023, 1) 10) = true) :=
  removeInsufficientData_retained_iff_not_flagged ⟨1, 2⟩ 10 Group.M df5 (by decide)
    ⟨"ITXB05", "B", ⟨2023, 1, 1, 9⟩, some 100, 1⟩ (by decide) (by decide)

/-! ### addUniverse (eda.py lines 21-32) -/

/-- Trade record before universe enrichment (no family column). -/
structure RawRecord where
  ticker : String
  valueDate : Timestamp
  spread : Option Q
  size : Q
deriving DecidableEq, Repr

/-- Universe record: instrument reference data.  Fields not involved in any
claim (creditCurve, label, endDate, maturity, seniority, docClause, currency,
coupon, instrument) are omitted; they are carried through unchanged. -/
structure URecord where
  ticker_universe : String
  family : String
deriving DecidableEq, Repr

/-- addUniverse (eda.py lines 21-32): inner merge of the trade records with
the universe on ticker == ticker_universe.  Pandas preserves the left key
order and emits one output row per matching (trade, universe) pair, with no
cardinality check of any kind. -/
def addUniverse (df : List RawRecord) (df_universe : List URecord) : List Record :=
  df.flatMap (fun t =>
    (df_universe.filter (fun u => u.ticker_universe == t.ticker)).map
      (fun u => ⟨t.ticker, u.family, t.valueDate, t.spread, t.size⟩))

/-- Five trade records with distinct tickers. -/
def trades5 : List RawRecord :=
  [ ⟨"CDX01", ⟨2023, 1, 1, 9⟩, some 100, 1⟩,
    ⟨"CDX02", ⟨2023, 1, 1, 10⟩, some 101, 1⟩,
    ⟨"CDX03", ⟨2023, 1, 1, 11⟩, some 102, 1⟩,
    ⟨"CDX04", ⟨2023, 1, 1, 12⟩, some 103, 1⟩,
    ⟨"CDX05", ⟨2023, 1, 1, 13⟩, some 104, 1⟩ ]

/-- Universe with one duplicated ticker key. -/
def univ6 : List URecord :=
  [ ⟨"CDX01", "F1"⟩, ⟨"CDX01", "F1B"⟩, ⟨"CDX02", "F2"⟩,
    ⟨"CDX03", "F3"⟩, ⟨"CDX04", "F4"⟩, ⟨"CDX05", "F5"⟩ ]

/-- C8 counterexample: with 5 trade records and a universe containing one
duplicate ticker key, addUniverse silently returns 6 rows - more output rows
than input trade rows - instead of detecting or reporting the join-cardinality
violation. -/
theorem addUniverse_silent_fanout :
    trades5.length = 5 ∧ (addUniverse trades5 univ6).length = 6 := by
  decide

/-- C8 amended: addUniverse performs no cardinality detection; its output row
count is always exactly the fan-out count, the sum over trade records of the
number of universe rows matching that record's ticker (so duplicate universe
keys yield more output rows than input rows, silently, with no row loss). -/
theorem addUniverse_length_is_fanout (df : List RawRecord) (df_universe : List URecord) :
    (addUniverse df df_universe).length =
      (df.map (fun t =>
        (df_universe.filter (fun u => u.ticker_universe == t.ticker)).length)).sum := by
  unfold addUniverse
  rw [List.length_flatMap]
  simp only [Function.comp_def, List.length_map]

/-- C8 witness for the fan-out count theorem, at the concrete five-trade
input with a duplicated universe key. -/
theorem addUniverse_length_is_fanout_witness :
    (addUniverse trades5 univ6).length =
      (trades5.map (fun t =>
        (univ6.filter (fun u => u.ticker_universe == t.ticker)).length)).sum :=
  addUniverse_length_is_fanout trades5 univ6

/-! ### aggregateTimeSimilar (eda.py lines 195-204) -/

/-- Median of a list of rational values, as pandas computes it: sort
ascending, take the middle element for odd length and the mean of the two
middle elements for even length.  Only applied to nonempty lists (pandas
returns NaN on an empty one, modelled by medianOpt). -/
def median (l : List Q) : Q :=
  let s := List.insertionSort (fun a b => Q.le a b = true) l
  if l.length % 2 = 1 then s.getD (l.length / 2) 0
  else Q.div (Q.add (s.getD (l.length / 2 - 1) 0) (s.getD (l.length / 2) 0)) 2

/-- Median of the present values of a column that may contain NaN cells
(pandas median skips NaN and returns NaN when nothing is left). -/
def medianOpt (l : List Q) : Option Q :=
  if l.isEmpty then none else some (median l)

/-- Sort order of the (family, valueDate) group keys produced by groupby. -/
def keyLE (a b : String × Timestamp) : Bool :=
  if a.1 == b.1 then tsLE a.2 b.2 else strLe a.1 b.1

/-- Group keys of aggregateTimeSimilar: the distinct (family, valueDate)
pairs, in the sorted order in which groupby emits them. -/
def aggKeys (df : List Record) : List (String × Timestamp) :=
  List.insertionSort (fun a b => keyLE a b = true)
    ((df.map (fun r => (r.family, r.valueDate))).dedup)

/-- Output row of aggregateTimeSimilar. -/
structure ARow where
  family : String
  valueDate : Timestamp
  spread : Option Q
  size : Q
deriving DecidableEq, Repr

/-- aggregateTimeSimilar (eda.py lines 195-204): group by exact
(family, valueDate) and reduce each group to the median spread and median
size. -/
def aggregateTimeSimilar (df : List Record) : List ARow :=
  (aggKeys df).map (fun k =>
    ⟨k.1, k.2,
      medianOpt ((df.filter
        (fun r => r.family == k.1 && r.valueDate == k.2)).filterMap (·.spread)),
      median ((df.filter
        (fun r => r.family == k.1 && r.valueDate == k.2)).map (·.size))⟩)

/-- C7: after aggregateTimeSimilar every (family, valueDate) pair appears in
at most one output row, and that row's spread (respectively size) is the
median of the spread (respectively size) values of the input records sharing
that exact key. -/
theorem aggregateTimeSimilar_unique_keys_median (df : List Record) :
    ((aggregateTimeSimilar df).map (fun a => (a.family, a.valueDate))).Nodup ∧
    ∀ a ∈ aggregateTimeSimilar df,
      a.spread = medianOpt ((df.filter
          (fun r => r.family == a.family && r.valueDate == a.valueDate)).filterMap (·.spread)) ∧
      a.size = median ((df.filter
          (fun r => r.family == a.family && r.valueDate == a.valueDate)).map (·.size)) := by
  constructor
  · have h1 : (aggregateTimeSimilar df).map (fun a => (a.family, a.valueDate)) = aggKeys df := by
      unfold aggregateTimeSimilar
      rw [List.map_map]
      exact List.map_id (aggKeys df)
    rw [h1]
    exact ((List.perm_insertionSort _ _).nodup_iff).mpr (List.nodup_dedup _)
  · intro a ha
    rcases List.mem_map.mp ha with ⟨k, hk, rfl⟩
    exact ⟨rfl, rfl⟩

/-- Three trades, two of them sharing the exact (family, valueDate) key. -/
def dfAgg : List Record :=
  [ ⟨"T1", "A", ⟨2023, 1, 1, 9⟩, some 10, 1⟩,
    ⟨"T2", "A", ⟨2023, 1, 1, 9⟩, some 20, 3⟩,
    ⟨"T3", "B", ⟨2023, 1, 1, 9⟩, some 30, 5⟩ ]

/-- C7 witness: the aggregation theorem applied to the concrete record set
dfAgg, which contains a duplicated (family, valueDate) key. -/
theorem aggregateTimeSimilar_unique_keys_median_witness :
    ((aggregateTimeSimilar dfAgg).map (fun a => (a.family, a.valueDate))).Nodup ∧
    ∀ a ∈ aggregateTimeSimilar dfAgg,
      a.spread = medianOpt ((dfAgg.filter
          (fun r => r.family == a.family && r.valueDate == a.valueDate)).filterMap (·.spread)) ∧
      a.size = median ((dfAgg.filter
          (fun r => r.family == a.family && r.valueDate == a.valueDate)).map (·.size)) :=
  aggregateTimeSimilar_unique_keys_median dfAgg

/-! ### removeOutliers (eda.py lines 160-193)

The function assigns TransactionID = positional index in the incoming row
order (reset_index before any sorting), then sorts by valueDate, computes
per-family rolling windows of 100 rows with the window's MAD, median and
maximum TransactionID, and left-merges those statistics back on TransactionID
alone.  When the incoming row order already agrees with the valueDate order
the maximum TransactionID of a window is the id of the window's last row, so
each row receives its own window's statistics; for other inputs the join can
attach a window to a different row (see the counterexamples below). -/

/-- The constant 0.6745 of the modified z-score. -/
def c6745 : Q := ⟨6745, 10000⟩

/-- Column ModifiedZScore (eda.py line 184): 0.6745 * (spread - Median) / MADRollingSpread. -/
def modifiedZScore (s med mad : Q) : Q := Q.div (Q.mul c6745 (Q.sub s med)) mad

/-- Float semantics of the filter abs(ModifiedZScore) <= 3.5 (eda.py line 187):
when MADRollingSpread is 0 the float division yields +-inf (spread different
from Median) or NaN (spread equal to Median), and in either case the
comparison with 3.5 evaluates to false, so the row is dropped; this is the
explicit first conjunct.  For a nonzero MAD the comparison is the exact
rational one. -/
def zKeep (s med mad : Q) : Bool :=
  !(Q.eqv mad 0) && Q.le (Q.qabs (modifiedZScore s med mad)) ⟨7, 2⟩

/-- Row order after TransactionID assignment and the valueDate sort
(eda.py lines 168-172): enumerate the incoming rows with their positional
TransactionID, then sort by valueDate. -/
def sortedDf (df : List Record) : List (Nat × Record) :=
  List.insertionSort (fun p q => tsLE p.2.valueDate q.2.valueDate = true) df.enum

/-- One family's subsequence of the sorted rows (the rows a groupby-family
rolling window ranges over). -/
def famSeqOf (df : List Record) (f : String) : List (Nat × Record) :=
  (sortedDf df).filter (fun p => p.2.family == f)

/-- Family keys in the sorted order in which groupby emits them. -/
def familiesSorted (df : List Record) : List String :=
  List.insertionSort (fun a b => strLe a b = true)
    (((sortedDf df).map (·.2.family)).dedup)

/-- All length-100 windows of a family sequence, one per window end position
99, 100, ...; a family with fewer than 100 rows has none (rolling with
window=100 leaves NaN rows, dropped by the dropna on Median). -/
def slidingWindows (l : List (Nat × Record)) : List (List (Nat × Record)) :=
  (List.range (l.length + 1 - 100)).map (fun j => (l.drop j).take 100)

/-- Collects the values of a window's spread column; none when the window
contains a NaN spread, in which case the rolling median of the window is NaN
and the row is dropped by the dropna on Median (eda.py line 178). -/
def allSome : List (Option Q) → Option (List Q)
  | [] => some []
  | none :: _ => none
  | some x :: rest => (allSome rest).map (fun xs => x :: xs)

/-- The mad1 aggregation of eda.py line 175: median absolute deviation,
median of |x - median(x)|. -/
def mad1 (l : List Q) : Q := median (l.map (fun x => Q.qabs (Q.sub x (median l))))

/-- One row of df_trades_mad after the dropna (eda.py lines 176-179): family,
the valueDate of the window's last row, the window's MAD and median spread,
and the maximum TransactionID occurring in the window. -/
structure MadRow where
  family : String
  valueDate : Timestamp
  MADRollingSpread : Q
  Median : Q
  TransactionID : Nat
deriving DecidableEq, Repr

/-- Maximum TransactionID of a window (the agg max on TransactionID). -/
def maxID (w : List (Nat × Record)) : Nat := (w.map (·.1)).foldl max 0

def windowRow (f : String) (w : List (Nat × Record)) : Option MadRow :=
  match allSome (w.map (·.2.spread)) with
  | none => none
  | some vals =>
    some ⟨f, (w.getLastD (0, ⟨"", "", ⟨0, 0, 0, 0⟩, none, 0⟩)).2.valueDate,
      mad1 vals, median vals, maxID w⟩

/-- The df_trades_mad table (eda.py lines 176-179). -/
def madRows (df : List Record) : List MadRow :=
  (familiesSorted df).flatMap (fun f =>
    (slidingWindows (famSeqOf df f)).filterMap (windowRow f))

/-- Output row of removeOutliers: the surviving trade row together with the
merged window statistics.  The wDate field is the valueDate column of the
merge result, which comes from the right (window) table because the left
frame's valueDate is its index at the time of the merge. -/
structure ORow where
  TransactionID : Nat
  record : Record
  wDate : Timestamp
  MADRollingSpread : Q
  Median : Q
  ModifiedZScore : Q
deriving DecidableEq, Repr

/-- Merge of one sorted row with one matching window row followed by the
z-score filter (eda.py lines 182-187): a row with NaN spread gets a NaN
z-score and is dropped, otherwise it survives iff the float comparison
abs(z) <= 3.5 holds. -/
def keepRow (p : Nat × Record) (m : MadRow) : Option ORow :=
  match p.2.spread with
  | some s =>
    if zKeep s m.Median m.MADRollingSpread then
      some ⟨p.1, p.2, m.valueDate, m.MADRollingSpread, m.Median,
        modifiedZScore s m.Median m.MADRollingSpread⟩
    else none
  | none => none

/-- removeOutliers (eda.py lines 160-193): left-merge the sorted rows with
df_trades_mad on TransactionID (each row fans out over all window rows whose
maximum TransactionID equals its id; rows with no match are dropped by the
dropna on the merged statistics), then keep the rows passing the z-score
filter. -/
def removeOutliers (df : List Record) : List ORow :=
  (sortedDf df).flatMap (fun p =>
    ((madRows df).filter (fun m => m.TransactionID == p.1)).filterMap (keepRow p))

/-- Position of the record with the given TransactionID inside its family's
sorted sequence. -/
def famPos (df : List Record) (f : String) (tid : Nat) : Option Nat :=
  (famSeqOf df f).findIdx? (fun q => q.1 == tid)

/-- The window of the family sequence ending at position i (the record's own
rolling window when i >= 99). -/
def windowEndingAt (df : List Record) (f : String) (i : Nat) : List (Nat × Record) :=
  ((famSeqOf df f).take (i + 1)).drop (i - 99)

/-- Median and MAD of a surviving row's own rolling window: the window of its
family's sorted sequence that ends at the row's own position (defined only
when that position is at least 99 and the window's spreads are all
recorded). -/
def ownStats (df : List Record) (row : ORow) : Option (Q × Q) :=
  match famPos df row.record.family row.TransactionID with
  | none => none
  | some i =>
    if 99 ≤ i then
      match allSome ((windowEndingAt df row.record.family i).map (·.2.spread)) with
      | none => none
      | some vals => some (median vals, mad1 vals)
    else none

/-- Records already sorted by valueDate, the order reproducibility condition
of the specification. -/
def sortedByDate (df : List Record) : Prop :=
  df.Pairwise (fun a b => tsLE a.valueDate b.valueDate = true)

instance (df : List Record) : Decidable (sortedByDate df) := by
  unfold sortedByDate
  infer_instance

/-- One family, 100 records with strictly increasing valueDates, presented in
reverse chronological order, spreads 0..99 in chronological order. -/
def dfRev : List Record :=
  (List.range 100).map (fun k =>
    ⟨"RT", "A", ⟨2023, 1, 1, 99 - k⟩, some ⟨((99 - k : Nat) : Int), 1⟩, 1⟩)

/-- C6 counterexample: on the reverse-ordered input dfRev, the record at
position 0 of the family's valueDate-sorted sequence carries the maximum
TransactionID of the single full window, receives that window's statistics in
the TransactionID merge, passes the z-score filter and survives - so records
in the first 99 positions are not always dropped. -/
theorem removeOutliers_keeps_first_position_row :
    ∃ row ∈ removeOutliers dfRev,
      famPos dfRev row.record.family row.TransactionID = some 0 := by
  decide

/-- One family, 101 records with strictly increasing valueDates (hours
0..100); the two latest records are swapped in the input order, so the
record at sorted position 99 has TransactionID 100, the maximum id of both
full windows.  Spreads: position 0 has -2, positions 1..49 have -1,
positions 50..98 have 1, position 99 has 6, position 100 has 2. -/
def dfC2 : List Record :=
  ((List.range 99).map (fun p =>
    ⟨"RT", "A", ⟨2023, 1, 1, p⟩,
      some (if p = 0 then ⟨-2, 1⟩ else if p ≤ 49 then ⟨-1, 1⟩ else ⟨1, 1⟩), 1⟩))
  ++ [⟨"RT", "A", ⟨2023, 1, 1, 100⟩, some ⟨2, 1⟩, 1⟩,
      ⟨"RT", "A", ⟨2023, 1, 1, 99⟩, some ⟨6, 1⟩, 1⟩]

/-- C2 counterexample: on dfC2 a record survives removeOutliers although the
modified z-score over its own 100-record rolling window (median 0, MAD 1,
spread 6, z-score 4.047) exceeds 3.5 in absolute value - the TransactionID
merge attached the statistics of the following window (median 1, MAD 3/2,
z-score 2.248) to it. -/
theorem removeOutliers_own_window_zscore_above_bound :
    ∃ row ∈ removeOutliers dfC2, ∃ s, row.record.spread = some s ∧
      ∃ st, ownStats dfC2 row = some st ∧
        Q.le (Q.qabs (modifiedZScore s st.1 st.2)) ⟨7, 2⟩ = false := by
  decide

/-! ### Structural lemmas about removeOutliers -/

theorem keepRow_eq_some {p : Nat × Record} {m : MadRow} {row : ORow}
    (h : keepRow p m = some row) :
    ∃ s, p.2.spread = some s ∧ zKeep s m.Median m.MADRollingSpread = true ∧
      row = ⟨p.1, p.2, m.valueDate, m.MADRollingSpread, m.Median,
        modifiedZScore s m.Median m.MADRollingSpread⟩ := by
  cases hs : p.2.spread with
  | none =>
    simp only [keepRow, hs] at h
    exact Option.noConfusion h
  | some s =>
    simp only [keepRow, hs] at h
    split_ifs at h with hz
    · exact ⟨s, rfl, hz, (Option.some_inj.mp h).symm⟩

theorem windowRow_eq_some {f : String} {w : List (Nat × Record)} {m : MadRow}
    (h : windowRow f w = some m) :
    ∃ vals, allSome (w.map (·.2.spread)) = some vals ∧
      m.family = f ∧ m.MADRollingSpread = mad1 vals ∧ m.Median = median vals ∧
      m.TransactionID = maxID w := by
  cases ha : allSome (w.map (·.2.spread)) with
  | none =>
    simp only [windowRow, ha] at h
    exact Option.noConfusion h
  | some vals =>
    simp only [windowRow, ha, Option.some_inj] at h
    exact ⟨vals, rfl, by rw [← h], by rw [← h], by rw [← h], by rw [← h]⟩

theorem mem_madRows {df : List Record} {m : MadRow} (h : m ∈ madRows df) :
    ∃ f, ∃ w ∈ slidingWindows (famSeqOf df f), windowRow f w = some m := by
  rcases List.mem_flatMap.mp h with ⟨f, hf, hm⟩
  rcases List.mem_filterMap.mp hm with ⟨w, hw, hwm⟩
  exact ⟨f, w, hw, hwm⟩

theorem mem_removeOutliers {df : List Record} {row : ORow}
    (h : row ∈ removeOutliers df) :
    ∃ p ∈ sortedDf df, ∃ m ∈ madRows df,
      m.TransactionID = p.1 ∧ keepRow p m = some row := by
  rcases List.mem_flatMap.mp h with ⟨p, hp, hrow⟩
  rcases List.mem_filterMap.mp hrow with ⟨m, hm, hkeep⟩
  rcases List.mem_filter.mp hm with ⟨hm', htid⟩
  exact ⟨p, hp, m, hm', eq_of_beq htid, hkeep⟩

theorem mem_slidingWindows {l w : List (Nat × Record)} (h : w ∈ slidingWindows l) :
    ∃ j, j + 100 ≤ l.length ∧ w = (l.drop j).take 100 := by
  rcases List.mem_map.mp h with ⟨j, hj, rfl⟩
  have := List.mem_range.mp hj
  exact ⟨j, by omega, rfl⟩

theorem window_length {l : List (Nat × Record)} {j : Nat} (hj : j + 100 ≤ l.length) :
    ((l.drop j).take 100).length = 100 := by
  simp only [List.length_take, List.length_drop]
  omega

theorem window_sublist (l : List (Nat × Record)) (j : Nat) :
    ((l.drop j).take 100).Sublist l :=
  (List.take_sublist 100 (l.drop j)).trans (List.drop_sublist j l)

theorem le_foldl_max (l : List Nat) (a : Nat) : a ≤ l.foldl max a := by
  induction l generalizing a with
  | nil => exact Nat.le_refl a
  | cons x xs ih => exact Nat.le_trans (Nat.le_max_left a x) (ih (max a x))

theorem foldl_max_le_of_mem {l : List Nat} {x : Nat} (a : Nat) (h : x ∈ l) :
    x ≤ l.foldl max a := by
  induction l generalizing a with
  | nil => cases h
  | cons y ys ih =>
    rcases List.mem_cons.mp h with rfl | h'
    · exact Nat.le_trans (Nat.le_max_right a x) (le_foldl_max ys (max a x))
    · exact ih (max a y) h'

theorem foldl_max_mem (l : List Nat) (a : Nat) :
    l.foldl max a = a ∨ l.foldl max a ∈ l := by
  induction l generalizing a with
  | nil => exact Or.inl rfl
  | cons x xs ih =>
    rcases ih (max a x) with h | h
    · rcases Nat.le_total a x with hax | hxa
      · right
        rw [List.foldl_cons, h, Nat.max_eq_right hax]
        exact List.mem_cons_self x xs
      · left
        rw [List.foldl_cons, h, Nat.max_eq_left hxa]
    · right
      exact List.mem_cons_of_mem x h

theorem maxID_mem {w : List (Nat × Record)} (hw : w ≠ []) : ∃ q ∈ w, q.1 = maxID w := by
  rcases foldl_max_mem (w.map (·.1)) 0 with h | h
  · rcases w with _ | ⟨q, t⟩
    · exact absurd rfl hw
    · refine ⟨q, List.mem_cons_self q t, ?_⟩
      have h1 : q.1 ≤ ((q :: t).map (·.1)).foldl max 0 :=
        foldl_max_le_of_mem 0 (by simp)
      unfold maxID
      omega
  · rcases List.mem_map.mp h with ⟨q, hq, hfst⟩
    exact ⟨q, hq, hfst⟩

theorem le_maxID {w : List (Nat × Record)} {q : Nat × Record} (hq : q ∈ w) :
    q.1 ≤ maxID w :=
  foldl_max_le_of_mem 0 (List.mem_map.mpr ⟨q, hq, rfl⟩)

theorem sortedDf_perm_enum (df : List Record) : (sortedDf df).Perm df.enum :=
  List.perm_insertionSort _ _

theorem sortedDf_fst_nodup (df : List Record) :
    ((sortedDf df).map (fun p => p.1)).Nodup := by
  have h := (sortedDf_perm_enum df).map (fun p : Nat × Record => p.1)
  have h2 : (df.enum.map (fun p : Nat × Record => p.1)) = List.range df.length :=
    List.enum_map_fst df
  rw [h2] at h
  exact h.nodup_iff.mpr (List.nodup_range _)

theorem eq_of_fst_eq {l : List (Nat × Record)} (hn : (l.map (fun p => p.1)).Nodup)
    {p q : Nat × Record} (hp : p ∈ l) (hq : q ∈ l) (hfst : p.1 = q.1) : p = q := by
  induction l with
  | nil => cases hp
  | cons a t ih =>
    rw [List.map_cons] at hn
    rcases List.nodup_cons.mp hn with ⟨hna, hnt⟩
    rcases List.mem_cons.mp hp with hpa | hp'
    · rcases List.mem_cons.mp hq with hqa | hq'
      · rw [hpa, hqa]
      · exact absurd (List.mem_map.mpr ⟨q, hq', by rw [← hfst, hpa]⟩) hna
    · rcases List.mem_cons.mp hq with hqa | hq'
      · exact absurd (List.mem_map.mpr ⟨p, hp', by rw [hfst, hqa]⟩) hna
      · exact ih hnt hp' hq'

theorem famSeq_sublist (df : List Record) (f : String) :
    (famSeqOf df f).Sublist (sortedDf df) := List.filter_sublist _

theorem famSeq_family {df : List Record} {f : String} {q : Nat × Record}
    (hq : q ∈ famSeqOf df f) : q.2.family = f :=
  eq_of_beq (List.mem_filter.mp hq).2

theorem famSeq_mem_sorted {df : List Record} {f : String} {q : Nat × Record}
    (hq : q ∈ famSeqOf df f) : q ∈ sortedDf df :=
  (List.mem_filter.mp hq).1

/-- Every surviving row of removeOutliers carries the statistics of some full
window of its own family's sorted sequence, a window that contains the row
itself and whose maximum TransactionID is the row's TransactionID. -/
theorem removeOutliers_structure {df : List Record} {row : ORow}
    (h : row ∈ removeOutliers df) :
    ∃ w ∈ slidingWindows (famSeqOf df row.record.family), ∃ vals,
      allSome (w.map (·.2.spread)) = some vals ∧
      (row.TransactionID, row.record) ∈ w ∧
      row.TransactionID = maxID w ∧
      row.MADRollingSpread = mad1 vals ∧ row.Median = median vals ∧
      ∃ s, row.record.spread = some s ∧ zKeep s (median vals) (mad1 vals) = true ∧
        row.ModifiedZScore = modifiedZScore s (median vals) (mad1 vals) := by
  rcases mem_removeOutliers h with ⟨p, hp, m, hm, htid, hkeep⟩
  rcases keepRow_eq_some hkeep with ⟨s, hs, hz, hroweq⟩
  rcases mem_madRows hm with ⟨f, w, hw, hwm⟩
  rcases windowRow_eq_some hwm with ⟨vals, hvals, hf, hmad, hmed, hmax⟩
  rcases mem_slidingWindows hw with ⟨j, hj, hwshape⟩
  have hlen : w.length = 100 := by rw [hwshape]; exact window_length hj
  have hwne : w ≠ [] := by
    intro hnil
    rw [hnil] at hlen
    simp at hlen
  rcases maxID_mem hwne with ⟨q, hqw, hqfst⟩
  have hq_fam : q ∈ famSeqOf df f := by
    have hsub : w.Sublist (famSeqOf df f) := by rw [hwshape]; exact window_sublist _ _
    exact hsub.subset hqw
  have hpq : p = q := by
    refine eq_of_fst_eq (sortedDf_fst_nodup df) hp (famSeq_mem_sorted hq_fam) ?_
    rw [← htid, hmax, hqfst]
  subst hpq
  have hfam : p.2.family = f := famSeq_family hq_fam
  subst hroweq
  simp only
  rw [hfam]
  refine ⟨w, hw, vals, hvals, hqw, ?_, hmad, hmed, s, hs, ?_, ?_⟩
  · rw [← htid, hmax]
  · rw [← hmed, ← hmad]
    exact hz
  · rw [hmed, hmad]

/-- C10: a surviving row of removeOutliers never has a zero MADRollingSpread:
with a zero MAD the float z-score is infinite (spread different from the
window median) or NaN (spread equal to it), both of which fail the
abs(z) <= 3.5 comparison, so zero-MAD windows contribute no surviving
record. -/
theorem removeOutliers_zero_mad_never_survives (df : List Record) (row : ORow)
    (h : row ∈ removeOutliers df) : Q.eqv row.MADRollingSpread 0 = false := by
  rcases mem_removeOutliers h with ⟨p, hp, m, hm, htid, hkeep⟩
  rcases keepRow_eq_some hkeep with ⟨s, hs, hz, hroweq⟩
  subst hroweq
  simp only
  unfold zKeep at hz
  have h1 := ((Bool.and_eq_true _ _).mp hz).1
  simpa using h1

/-- One family, 100 records in chronological input order (hours 0..99,
spread equal to the hour). -/
def dfS : List Record :=
  (List.range 100).map (fun k =>
    ⟨"RT", "A", ⟨2023, 1, 1, k⟩, some ⟨(k : Int), 1⟩, 1⟩)

/-- C10 witness: the zero-MAD exclusion theorem applied to the concrete
record set dfS and its surviving row. -/
theorem removeOutliers_zero_mad_never_survives_witness :
    ∃ row ∈ removeOutliers dfS, Q.eqv row.MADRollingSpread 0 = false := by
  rcases hrow : removeOutliers dfS with _ | ⟨row, rest⟩
  · exact absurd hrow (by decide)
  · have hm : row ∈ removeOutliers dfS := by
      rw [hrow]
      exact List.mem_cons_self row rest
    exact ⟨row, List.mem_cons_self row rest,
      removeOutliers_zero_mad_never_survives dfS row hm⟩

/-! ### The sorted-input case: windows are attached to their own end rows -/

theorem pairwise_enum_snd {R : Record → Record → Prop} {df : List Record}
    (h : df.Pairwise R) : df.enum.Pairwise (fun p q => R p.2 q.2) := by
  have h2 : (df.enum.map Prod.snd).Pairwise R := by
    rw [List.enum_map_snd]
    exact h
  exact List.pairwise_map.mp h2

theorem sortedDf_eq_enum {df : List Record} (hs : sortedByDate df) :
    sortedDf df = df.enum :=
  List.Sorted.insertionSort_eq (pairwise_enum_snd hs)

theorem enum_fst_pairwise (df : List Record) :
    df.enum.Pairwise (fun p q : Nat × Record => p.1 < q.1) := by
  have h : (df.enum.map Prod.fst).Pairwise (· < ·) := by
    rw [List.enum_map_fst]
    exact List.pairwise_lt_range _
  exact List.pairwise_map.mp h

theorem famSeq_fst_pairwise {df : List Record} (hs : sortedByDate df) (f : String) :
    (famSeqOf df f).Pairwise (fun p q => p.1 < q.1) := by
  have h := enum_fst_pairwise df
  rw [← sortedDf_eq_enum hs] at h
  exact List.Pairwise.sublist (famSeq_sublist df f) h

theorem le_getLast_of_fst_lt {w : List (Nat × Record)}
    (hp : w.Pairwise (fun p q => p.1 < q.1)) (hw : w ≠ []) :
    ∀ q ∈ w, q.1 ≤ (w.getLast hw).1 := by
  induction w with
  | nil => exact absurd rfl hw
  | cons a t ih =>
    intro q hq
    rcases List.pairwise_cons.mp hp with ⟨ha, hp'⟩
    rcases List.mem_cons.mp hq with rfl | hq'
    · cases t with
      | nil => exact Nat.le_refl _
      | cons b t' =>
        rw [List.getLast_cons (List.cons_ne_nil b t')]
        exact Nat.le_of_lt (ha _ (List.getLast_mem _))
    · have ht : t ≠ [] := List.ne_nil_of_mem hq'
      rw [List.getLast_cons ht]
      exact ih hp' ht q hq'

theorem maxID_eq_getLast {w : List (Nat × Record)}
    (hp : w.Pairwise (fun p q => p.1 < q.1)) (hw : w ≠ []) :
    maxID w = (w.getLast hw).1 := by
  rcases maxID_mem hw with ⟨q, hq, hqfst⟩
  have h1 : q.1 ≤ (w.getLast hw).1 := le_getLast_of_fst_lt hp hw q hq
  have h2 : (w.getLast hw).1 ≤ maxID w := le_maxID (List.getLast_mem hw)
  omega

theorem findIdx_of_increasing : ∀ (l : List (Nat × Record)),
    l.Pairwise (fun p q => p.1 < q.1) →
    ∀ (i : Nat) (x : Nat × Record), l[i]? = some x → ∀ start,
      l.findIdx? (fun q => q.1 == x.1) start = some (start + i) := by
  intro l
  induction l with
  | nil =>
    intro _ i x hx
    simp at hx
  | cons a t ih =>
    intro hp i x hx start
    rcases List.pairwise_cons.mp hp with ⟨ha, hp'⟩
    cases i with
    | zero =>
      rw [List.getElem?_cons_zero] at hx
      injection hx with hax
      subst hax
      rw [List.findIdx?_cons]
      simp
    | succ i' =>
      rw [List.getElem?_cons_succ] at hx
      have hxm : x ∈ t := by
        rcases List.getElem?_eq_some_iff.mp hx with ⟨hlt, hget⟩
        rw [← hget]
        exact List.getElem_mem hlt
      have hne : (a.1 == x.1) = false := by
        simp only [beq_eq_false_iff_ne]
        exact Nat.ne_of_lt (ha x hxm)
      rw [List.findIdx?_cons, hne]
      simp only [Bool.false_eq_true, if_false]
      rw [ih hp' i' x hx (start + 1)]
      congr 1
      omega

theorem enumFrom_filter_snd_length (pred : Record → Bool) :
    ∀ (df : List Record) (n : Nat),
      ((List.enumFrom n df).filter (fun p => pred p.2)).length
        = (df.filter pred).length := by
  intro df
  induction df with
  | nil => intro n; rfl
  | cons a t ih =>
    intro n
    show (List.filter (fun p => pred p.2) ((n, a) :: List.enumFrom (n + 1) t)).length
        = (List.filter pred (a :: t)).length
    rw [List.filter_cons, List.filter_cons]
    by_cases hp : pred a = true <;> simp [hp, ih (n + 1)]

theorem famSeq_length (df : List Record) (f : String) :
    (famSeqOf df f).length = (df.filter (fun r => r.family == f)).length := by
  unfold famSeqOf
  have hperm := (sortedDf_perm_enum df).filter (fun p : Nat × Record => p.2.family == f)
  rw [hperm.length_eq]
  exact enumFrom_filter_snd_length (fun r => r.family == f) df 0

/-- When the input rows already come in valueDate order, each surviving row's
attached window is exactly the window of its family's sequence that ends at
the row's own position j + 99. -/
theorem attached_window_is_own_sorted {df : List Record} {row : ORow}
    (hsort : sortedByDate df) (h : row ∈ removeOutliers df) :
    ∃ j, j + 100 ≤ (famSeqOf df row.record.family).length ∧
      famPos df row.record.family row.TransactionID = some (j + 99) ∧
      windowEndingAt df row.record.family (j + 99)
        = ((famSeqOf df row.record.family).drop j).take 100 ∧
      ∃ vals,
        allSome (((((famSeqOf df row.record.family).drop j).take 100)).map (·.2.spread))
          = some vals ∧
        row.MADRollingSpread = mad1 vals ∧ row.Median = median vals ∧
        ∃ s, row.record.spread = some s ∧ zKeep s (median vals) (mad1 vals) = true ∧
          row.ModifiedZScore = modifiedZScore s (median vals) (mad1 vals) := by
  rcases removeOutliers_structure h with
    ⟨w, hw, vals, hvals, hmemw, hmax, hmad, hmed, s, hs, hz, hzs⟩
  rcases mem_slidingWindows hw with ⟨j, hj, hwshape⟩
  subst hwshape
  have hlp : (famSeqOf df row.record.family).Pairwise (fun p q => p.1 < q.1) :=
    famSeq_fst_pairwise hsort row.record.family
  have hwp := List.Pairwise.sublist (window_sublist (famSeqOf df row.record.family) j) hlp
  have hwlen := window_length hj
  have hwne : (((famSeqOf df row.record.family).drop j).take 100) ≠ [] := by
    intro hn
    rw [hn] at hwlen
    simp at hwlen
  have hj99 : j + 99 < (famSeqOf df row.record.family).length := by omega
  have hlast : (((famSeqOf df row.record.family).drop j).take 100).getLast hwne
      = (famSeqOf df row.record.family)[j + 99] := by
    have h1 := List.getLast?_eq_getLast
      (((famSeqOf df row.record.family).drop j).take 100) hwne
    have h2 : (((famSeqOf df row.record.family).drop j).take 100).getLast?
        = some ((famSeqOf df row.record.family)[j + 99]) := by
      rw [List.getLast?_eq_getElem?, hwlen]
      rw [show (100 : Nat) - 1 = 99 from rfl]
      rw [List.getElem?_take, if_pos (by omega : (99 : Nat) < 100)]
      rw [List.getElem?_drop]
      exact List.getElem?_eq_getElem hj99
    rw [h1] at h2
    exact Option.some_inj.mp h2
  have hmaxId : maxID (((famSeqOf df row.record.family).drop j).take 100)
      = ((famSeqOf df row.record.family)[j + 99]).1 := by
    rw [maxID_eq_getLast hwp hwne, hlast]
  have htid : row.TransactionID = ((famSeqOf df row.record.family)[j + 99]).1 := by
    rw [hmax, hmaxId]
  have hpos : famPos df row.record.family row.TransactionID = some (j + 99) := by
    unfold famPos
    rw [htid]
    have hfind := findIdx_of_increasing (famSeqOf df row.record.family) hlp (j + 99)
      ((famSeqOf df row.record.family)[j + 99]) (List.getElem?_eq_getElem hj99) 0
    simpa using hfind
  have hwin : windowEndingAt df row.record.family (j + 99)
      = ((famSeqOf df row.record.family).drop j).take 100 := by
    unfold windowEndingAt
    have hsub : j + 99 - 99 = j := by omega
    rw [hsub, List.drop_take]
    congr 1
    omega
  exact ⟨j, hj, hpos, hwin, vals, hvals, hmad, hmed, s, hs, hz, hzs⟩

/-- C6 amended: a family with fewer than 100 records in the input contributes
no record to the removeOutliers output (every surviving row's family has at
least 100 input records), and - provided the input rows already come in
valueDate order - every surviving row sits at position at least 99 of its
family's sorted sequence, i.e. the records in the first 99 positions are
dropped.  (For inputs not in valueDate order the first-99 part fails, see the
counterexample.) -/
theorem removeOutliers_window_minimum (df : List Record) (row : ORow)
    (h : row ∈ removeOutliers df) :
    100 ≤ (df.filter (fun r => r.family == row.record.family)).length ∧
    (sortedByDate df → ∃ i, 99 ≤ i ∧
      famPos df row.record.family row.TransactionID = some i) := by
  constructor
  · rcases removeOutliers_structure h with ⟨w, hw, _⟩
    rcases mem_slidingWindows hw with ⟨j, hj, _⟩
    rw [← famSeq_length df row.record.family]
    omega
  · intro hsort
    rcases attached_window_is_own_sorted hsort h with ⟨j, hj, hpos, _⟩
    exact ⟨j + 99, by omega, hpos⟩

/-- C6 witness: the window-minimum theorem applied to the concrete sorted
record set dfS and its surviving row. -/
theorem removeOutliers_window_minimum_witness :
    ∃ row ∈ removeOutliers dfS,
      100 ≤ (dfS.filter (fun r => r.family == row.record.family)).length ∧
      (sortedByDate dfS → ∃ i, 99 ≤ i ∧
        famPos dfS row.record.family row.TransactionID = some i) := by
  rcases hrow : removeOutliers dfS with _ | ⟨row, rest⟩
  · exact absurd hrow (by decide)
  · have hm : row ∈ removeOutliers dfS := by
      rw [hrow]
      exact List.mem_cons_self row rest
    exact ⟨row, List.mem_cons_self row rest, removeOutliers_window_minimum dfS row hm⟩

/-- C2 amended: when the input rows already come in valueDate order, every
record surviving removeOutliers carries exactly the statistics of its own
100-record rolling window, its MAD is nonzero, and the absolute value of its
modified z-score over that window is at most 3.5.  (For inputs not in
valueDate order the merge can attach a different window and the own-window
score can exceed 3.5, see the counterexample.) -/
theorem removeOutliers_zscore_bound_sorted (df : List Record) (row : ORow)
    (hsort : sortedByDate df) (h : row ∈ removeOutliers df) :
    ∃ s, row.record.spread = some s ∧
      ownStats df row = some (row.Median, row.MADRollingSpread) ∧
      Q.eqv row.MADRollingSpread 0 = false ∧
      Q.le (Q.qabs (modifiedZScore s row.Median row.MADRollingSpread)) ⟨7, 2⟩ = true := by
  rcases attached_window_is_own_sorted hsort h with
    ⟨j, hj, hpos, hwin, vals, hvals, hmad, hmed, s, hs, hz, hzs⟩
  refine ⟨s, hs, ?_, ?_, ?_⟩
  · simp only [ownStats, hpos]
    rw [if_pos (by omega : 99 ≤ j + 99)]
    simp only [hwin, hvals]
    rw [hmad, hmed]
  · unfold zKeep at hz
    have h1 := ((Bool.and_eq_true _ _).mp hz).1
    rw [hmad]
    simpa using h1
  · have h2 := ((Bool.and_eq_true _ _).mp hz).2
    rw [hmed, hmad]
    exact h2

/-- C2 witness: the sorted-input z-score bound applied to the concrete sorted
record set dfS and its surviving row. -/
theorem removeOutliers_zscore_bound_sorted_witness :
    ∃ row ∈ removeOutliers dfS, ∃ s, row.record.spread = some s ∧
      ownStats dfS row = some (row.Median, row.MADRollingSpread) ∧
      Q.eqv row.MADRollingSpread 0 = false ∧
      Q.le (Q.qabs (modifiedZScore s row.Median row.MADRollingSpread)) ⟨7, 2⟩ = true := by
  rcases hrow : removeOutliers dfS with _ | ⟨row, rest⟩
  · exact absurd hrow (by decide)
  · have hm : row ∈ removeOutliers dfS := by
      rw [hrow]
      exact List.mem_cons_self row rest
    exact ⟨row, List.mem_cons_self row rest,
      removeOutliers_zscore_bound_sorted dfS row (by decide) hm⟩

end CdsEda
